import Mathlib

/-!
FlashThought: shallow embedding and verification.

This file embeds the FlashThought idea-journaling application
(`src/App.tsx`, `src/components/IdeaModal.tsx`,
`src/components/UpdateTimeline.tsx`, and the AI suggestion adapter) in
Lean 4, and proves theorems settling claims about its data model,
collection-store mutations, query/view layer and error handling.

Modelling conventions:
* TypeScript `number` timestamps (`Date.now()` milliseconds) become `Nat`.
  Each syntactic call to `Date.now()` in a handler becomes its own
  explicit parameter of the embedded handler.
* `crypto.randomUUID()` becomes an explicit `String` parameter; its
  freshness is an environmental assumption stated as a hypothesis where
  a claim needs it.
* Optional TypeScript fields (`folderId`, `attachments`) become
  `Option`.  JavaScript truthiness of an optional string
  (`if (idea.folderId)`) is `optTruthy`: `none` and `some ""` are falsy.
* Calendar computations (`getFullYear` and `getMonth`, and the
  `toLocaleDateString` day keys) are modelled in UTC via the standard
  civil-from-days algorithm; `toLocaleDateString` with year, month and
  day produces a distinct string per calendar day, so the day key is
  modelled as the number of days since the epoch.
* JavaScript string operations (`includes`, `trim`, `toLowerCase`)
  are modelled by the executable `strIncludes`, `jsTrim` and
  `jsToLower` (ASCII case mapping, the range the application searches).
* The JavaScript `Array.prototype.sort` is stable, and `Object.keys`
  enumeration returns non-integer-like string keys in insertion
  (first-occurrence) order; they are modelled by `stableSort`
  (a stable insertion sort) and `collectKeys` (first-occurrence
  deduplication).
* React batches the state-setter calls of one event handler into a
  single state transition, so each handler is one pure function on the
  state.
-/

/-- Embeds `type IdeaStatus` (src/types): `active`, `completed` or `archived`. -/
inductive IdeaStatus where
  | active
  | completed
  | archived
deriving DecidableEq, Repr

/-- The `type` field of an `Attachment`: `image`, `video` or `file`. -/
inductive AttachmentType where
  | image
  | video
  | file
deriving DecidableEq, Repr

/-- The `type` field of an `IdeaUpdate`: `update`, `milestone` or `pivot`. -/
inductive UpdateType where
  | update
  | milestone
  | pivot
deriving DecidableEq, Repr

/-- Embeds `interface Attachment` (src/types): id, media type, base64 url, name. -/
structure Attachment where
  id : String
  type : AttachmentType
  url : String
  name : String
deriving DecidableEq, Repr

/-- Embeds `interface IdeaUpdate` (src/types): a timestamped timeline entry. -/
structure IdeaUpdate where
  id : String
  content : String
  timestamp : Nat
  type : UpdateType
  attachments : Option (List Attachment)
deriving DecidableEq, Repr

/-- Embeds `interface Idea` (src/types): the primary entity. -/
structure Idea where
  id : String
  title : String
  content : String
  tags : List String
  updates : List IdeaUpdate
  status : IdeaStatus
  createdAt : Nat
  lastModified : Nat
  attachments : Option (List Attachment)
  folderId : Option String
deriving DecidableEq, Repr

/-- Embeds `interface Folder` (src/types). -/
structure Folder where
  id : String
  name : String
  createdAt : Nat
deriving DecidableEq, Repr

/-- Embeds `interface AISuggestion` (src/types). -/
structure AISuggestion where
  tags : List String
  nextSteps : List String
deriving DecidableEq, Repr

/-- JavaScript truthiness of an optional string value
(`undefined` and `""` are falsy, every other string truthy). -/
def optTruthy : Option String → Bool
  | none => false
  | some s => s ≠ ""

/-- Whitespace characters stripped by JavaScript `trim` on the input
the application produces (space, tab, newline, carriage return). -/
def isSpaceChar (c : Char) : Bool :=
  c = ' ' || c = '\t' || c = '\n' || c = '\r'

/-- JavaScript `s.trim()`: strip leading and trailing whitespace. -/
def jsTrim (s : String) : String :=
  ⟨((s.data.dropWhile isSpaceChar).reverse.dropWhile isSpaceChar).reverse⟩

/-- ASCII lower-casing of one character, the effect of JavaScript
`toLowerCase` on the ASCII range. -/
def charLower (c : Char) : Char :=
  if 'A' ≤ c ∧ c ≤ 'Z' then Char.ofNat (c.toNat + 32) else c

/-- JavaScript `s.toLowerCase()` (ASCII range). -/
def jsToLower (s : String) : String :=
  ⟨s.data.map charLower⟩

/-- The application state carried by `App.tsx` that the collection-store
handlers read and write: the two collections, the active folder
selector and the search query. -/
structure AppState where
  ideas : List Idea
  folders : List Folder
  activeFolderId : String
  searchQuery : String
deriving DecidableEq, Repr

/-- The inputs of one `handleCreateIdea` invocation: the form fields
(`newTitle`, `newContent`, `newAttachments`), the id produced by
`crypto.randomUUID()`, and the values returned by the two `Date.now()`
calls (`createdAt` first, `lastModified` second). -/
structure CreateReq where
  newTitle : String
  newContent : String
  newAttachments : List Attachment
  freshId : String
  tCreated : Nat
  tModified : Nat
deriving DecidableEq, Repr

/-- The idea literal built inside `handleCreateIdea` (src/App.tsx:71-82):
title defaulted to `Untitled` when empty, empty tags/updates, status `active`,
timestamps from `Date.now()`, and `folderId` absent when the active
selector is `all` or `uncategorized`. -/
def mkIdea (activeFolderId : String) (r : CreateReq) : Idea :=
  { id := r.freshId
    title := if r.newTitle = "" then "Untitled" else r.newTitle
    content := r.newContent
    tags := []
    updates := []
    status := IdeaStatus.active
    createdAt := r.tCreated
    lastModified := r.tModified
    attachments := some r.newAttachments
    folderId :=
      if activeFolderId = "all" then none
      else if activeFolderId = "uncategorized" then none
      else some activeFolderId }

/-- `handleCreateIdea` (src/App.tsx:67-89): no-op when both title and
content are blank after trimming, otherwise prepends the new idea. -/
def handleCreateIdea (s : AppState) (r : CreateReq) : AppState :=
  if jsTrim r.newTitle = "" ∧ jsTrim r.newContent = "" then s
  else { s with ideas := mkIdea s.activeFolderId r :: s.ideas }

/-- `handleUpdateIdea` (src/App.tsx:91-94):
`ideas.map(i => i.id === updatedIdea.id ? updatedIdea : i)`. -/
def handleUpdateIdea (ideas : List Idea) (updatedIdea : Idea) : List Idea :=
  ideas.map (fun i => if i.id = updatedIdea.id then updatedIdea else i)

/-- `handleDeleteIdea` (src/App.tsx:96-98): `ideas.filter(i => i.id !== id)`. -/
def handleDeleteIdea (ideas : List Idea) (id : String) : List Idea :=
  ideas.filter (fun i => i.id ≠ id)

/-- `handleDeleteFolder` (src/App.tsx:116-123), the confirmed path:
removes the folder, reassigns every idea whose `folderId` equals the
deleted id to `undefined`, and resets the active selector if it pointed
at the deleted folder.  The three `set*` calls are batched by React
into this single transition. -/
def handleDeleteFolder (s : AppState) (folderId : String) : AppState :=
  { s with
    folders := s.folders.filter (fun f => f.id ≠ folderId)
    ideas := s.ideas.map (fun i =>
      if i.folderId = some folderId then { i with folderId := none } else i)
    activeFolderId := if s.activeFolderId = folderId then "all" else s.activeFolderId }

/-- `sub` occurs as a contiguous sublist of `l` starting at some
position (the character-list form of JavaScript `String.includes`). -/
def subAt : List Char → List Char → Bool
  | [], sub => sub.isEmpty
  | l@(_ :: t), sub => sub.isPrefixOf l || subAt t sub

/-- JavaScript `s.includes(sub)`: `sub` is a contiguous substring of `s`. -/
def strIncludes (s sub : String) : Bool :=
  subAt s.data sub.data

/-- The folder half of the filter callback inlined in `filteredIdeas`
(src/App.tsx:128-134).  A selector other than `all` gates the folder
check; the `uncategorized` branch is the truthiness test
`if (idea.folderId) return false`; any other selector requires strict
equality with the folder id. -/
def folderSelectorMatches (activeFolderId : String) (idea : Idea) : Bool :=
  if activeFolderId ≠ "all" then
    if activeFolderId = "uncategorized" then !optTruthy idea.folderId
    else idea.folderId = some activeFolderId
  else true

/-- The search half of the filter callback (src/App.tsx:135-141): a
query that is non-blank after trimming must occur, lower-cased, in the
lower-cased title, content, or some lower-cased tag (the matching uses
the untrimmed query). -/
def searchMatches (searchQuery : String) (idea : Idea) : Bool :=
  if jsTrim searchQuery ≠ "" then
    let query := jsToLower searchQuery
    strIncludes (jsToLower idea.title) query
      || strIncludes (jsToLower idea.content) query
      || idea.tags.any (fun t => strIncludes (jsToLower t) query)
  else true

/-- The whole filter callback of `filteredIdeas` (src/App.tsx:127-142):
the early returns make it the conjunction of the folder-selector check
and the search check. -/
def ideaPasses (activeFolderId searchQuery : String) (idea : Idea) : Bool :=
  folderSelectorMatches activeFolderId idea && searchMatches searchQuery idea

/-- `filteredIdeas` (src/App.tsx:126-144). -/
def filteredIdeas (ideas : List Idea) (activeFolderId searchQuery : String) :
    List Idea :=
  ideas.filter (ideaPasses activeFolderId searchQuery)

/-- `handleSave` (src/components/IdeaModal.tsx:32-41): commits the edit
draft (title, content, attachments) into the idea and stamps
`lastModified: Date.now()`. -/
def handleSave (idea : Idea) (editTitle editContent : String)
    (editAttachments : List Attachment) (now : Nat) : Idea :=
  { idea with
    title := editTitle
    content := editContent
    attachments := some editAttachments
    lastModified := now }

/-- `handleAddUpdate` (src/components/IdeaModal.tsx:43-56): builds a new
update (id from `crypto.randomUUID()`, timestamp from the first
`Date.now()`), appends it to `idea.updates` and stamps `lastModified`
with the second `Date.now()`. -/
def handleAddUpdate (idea : Idea) (content : String) (type : UpdateType)
    (attachments : List Attachment) (freshId : String)
    (tStamp tModified : Nat) : Idea :=
  { idea with
    updates := idea.updates ++
      [{ id := freshId, content := content, timestamp := tStamp,
         type := type, attachments := some attachments }]
    lastModified := tModified }

/-- `handleEditUpdate` (src/components/IdeaModal.tsx:58-65):
`updates.map(u => u.id === updatedUpdate.id ? updatedUpdate : u)` and a
fresh `lastModified`. -/
def handleEditUpdate (idea : Idea) (updatedUpdate : IdeaUpdate) (now : Nat) :
    Idea :=
  { idea with
    updates := idea.updates.map (fun u =>
      if u.id = updatedUpdate.id then updatedUpdate else u)
    lastModified := now }

/-- `handleDeleteUpdate` (src/components/IdeaModal.tsx:67-75), the
confirmed path: `updates.filter(u => u.id !== updateId)` and a fresh
`lastModified`. -/
def handleDeleteUpdate (idea : Idea) (updateId : String) (now : Nat) : Idea :=
  { idea with
    updates := idea.updates.filter (fun u => u.id ≠ updateId)
    lastModified := now }

/-- `handleFolderChange` (src/components/IdeaModal.tsx:77-82):
`folderId: e.target.value || undefined` — the empty select value (the
"Uncategorized" option) maps to an absent folder.  Note: this handler
does not touch `lastModified`. -/
def handleFolderChange (idea : Idea) (targetValue : String) : Idea :=
  { idea with folderId := if targetValue = "" then none else some targetValue }

/-- Milliseconds per calendar day. -/
def msPerDay : Nat := 86400000

/-- Days since the Unix epoch of a millisecond timestamp: the calendar
day (in UTC) used as the timeline grouping key — `toLocaleDateString`
with year/month/day yields a distinct string per such day. -/
def dayKey (t : Nat) : Nat := t / msPerDay

/-- Civil `(year, month)` of a day count since the Unix epoch
(Gregorian calendar, the standard days-to-civil conversion); this is
what `new Date(t).getFullYear()` / `.getMonth() + 1` compute (modelled
in UTC). -/
def civilOfDays (z : Nat) : Nat × Nat :=
  let z := z + 719468
  let era := z / 146097
  let doe := z % 146097
  let yoe := (doe - doe / 1460 + doe / 36524 - doe / 146096) / 365
  let y := yoe + era * 400
  let doy := doe - (365 * yoe + yoe / 4 - yoe / 100)
  let mp := (5 * doy + 2) / 153
  let m := if mp < 10 then mp + 3 else mp - 9
  (if m ≤ 2 then y + 1 else y, m)

/-- The `(year, month)` grouping key of `groupedIdeas`
(src/App.tsx:151): the sortable key string, the year followed by the
zero-padded month, is modelled by the pair itself — on the four-digit
years produced by `Date.now()` timestamps, lexicographic string order
and lexicographic pair order coincide. -/
def monthKey (t : Nat) : Nat × Nat := civilOfDays (dayKey t)

/-- First-occurrence key collection: the insertion order of the string
keys of a plain JavaScript object (non-integer-like keys enumerate in
insertion order). -/
def collectKeys {α κ : Type} [DecidableEq κ] (f : α → κ) : List α → List κ
  | [] => []
  | a :: l => f a :: (collectKeys f l).filter (fun k => k ≠ f a)

/-- Inserts `a` into `l` before the first element that may follow it:
the auxiliary step of the stable sort. -/
def insertSorted {α : Type} (le : α → α → Bool) (a : α) : List α → List α
  | [] => [a]
  | b :: l => if le a b then a :: b :: l else b :: insertSorted le a l

/-- A stable sort (insertion sort), modelling the stable
`Array.prototype.sort` of JavaScript. -/
def stableSort {α : Type} (le : α → α → Bool) : List α → List α
  | [] => []
  | a :: l => insertSorted le a (stableSort le l)

/-- Ascending lexicographic order on `(year, month)` keys: the
`.sort()` on the zero-padded `YYYY-MM` key strings. -/
def keyLe (a b : Nat × Nat) : Bool :=
  a.1 < b.1 || (a.1 = b.1 && a.2 ≤ b.2)

/-- Comparator `(a, b) => b.createdAt - a.createdAt` (sort descending). -/
def byCreatedDesc (a b : Idea) : Bool := b.createdAt ≤ a.createdAt

/-- Comparator `(a, b) => b.timestamp - a.timestamp` (sort descending). -/
def byTimestampDesc (a b : IdeaUpdate) : Bool := b.timestamp ≤ a.timestamp

/-- `groupedIdeas` (src/App.tsx:146-165): bucket the filtered ideas by
month key in a plain object (`groups[key].items.push` keeps filtered
order, so each bucket is a filter), sort the keys descending
(`Object.keys(groups).sort().reverse()`), and sort each bucket by
`createdAt` descending. -/
def groupedIdeas (filtered : List Idea) : List ((Nat × Nat) × List Idea) :=
  let keys := collectKeys (fun i => monthKey i.createdAt) filtered
  let sortedKeys := (stableSort keyLe keys).reverse
  sortedKeys.map (fun k =>
    (k, stableSort byCreatedDesc
          (filtered.filter (fun i => monthKey i.createdAt = k))))

/-- `groupedUpdates` (src/components/UpdateTimeline.tsx:72-88 and
362-378, identical in both variants): sort a copy of the updates by
timestamp descending, then bucket by calendar-day key;
`Object.entries` returns the buckets in key insertion order, i.e. in
order of first occurrence within the sorted list. -/
def groupedUpdates (updates : List IdeaUpdate) : List (Nat × List IdeaUpdate) :=
  let sorted := stableSort byTimestampDesc updates
  (collectKeys (fun u => dayKey u.timestamp) sorted).map (fun k =>
    (k, sorted.filter (fun u => dayKey u.timestamp = k)))

/-- Environment of one `generateIdeaSuggestions` call
(src/unnamed/part_000): the module-level `process.env.API_KEY`, the
outcome of the awaited `ai.models.generateContent` call
(`Except.error` = the call threw, e.g. a network error; `Except.ok`
carries `response.text`, which may be `undefined`), and the behaviour
of `JSON.parse` on the returned text (`Except.error` = parse threw on
malformed content). -/
structure AIEnv where
  apiKey : Option String
  callResult : Except String (Option String)
  parse : String → Except String AISuggestion

/-- `generateIdeaSuggestions` (src/unnamed/part_000:27-60): throws
`"API Key is missing"` when the key is falsy (this check precedes the
`try`); inside the `try`, a throwing call or a throwing `JSON.parse`
is caught and yields the empty default, as does a falsy
`response.text`. -/
def generateIdeaSuggestions (env : AIEnv) (title content : String) :
    Except String AISuggestion :=
  let _ := (title, content)
  if !optTruthy env.apiKey then Except.error "API Key is missing"
  else
    match env.callResult with
    | Except.error _ => Except.ok { tags := [], nextSteps := [] }
    | Except.ok none => Except.ok { tags := [], nextSteps := [] }
    | Except.ok (some text) =>
      if text = "" then Except.ok { tags := [], nextSteps := [] }
      else
        match env.parse text with
        | Except.error _ => Except.ok { tags := [], nextSteps := [] }
        | Except.ok s => Except.ok s

/-- Lookup of the folder referenced by an idea chip or select
(src/App.tsx:467, src/App.tsx:321): a dangling id yields nothing
rather than an error. -/
def folderName (folders : List Folder) (fid : String) : Option String :=
  (folders.find? (fun f => f.id = fid)).map Folder.name

/-- A concrete idea used to instantiate witnesses and counterexamples. -/
def baseIdea : Idea :=
  { id := "idea-1"
    title := "Solar kiln"
    content := "dry wood faster"
    tags := ["wood"]
    updates := []
    status := IdeaStatus.active
    createdAt := 100
    lastModified := 150
    attachments := none
    folderId := some "f1" }

/-- A concrete idea whose `folderId` references no existing folder. -/
def ghostIdea : Idea :=
  { baseIdea with id := "idea-ghost", folderId := some "ghost" }

/-- A concrete folder collection that does not contain `ghost`. -/
def sampleFolders : List Folder :=
  [{ id := "f1", name := "Research", createdAt := 50 }]

/-- An adapter environment with the credential absent; the call and
parse outcomes are irrelevant because the missing-key check precedes
the `try` block. -/
def noKeyEnv : AIEnv :=
  { apiKey := none
    callResult := Except.ok (some "ignored")
    parse := fun _ => Except.ok { tags := [], nextSteps := [] } }

/-- An adapter environment with a credential present whose service call
throws (a network error). -/
def netErrEnv : AIEnv :=
  { apiKey := some "k"
    callResult := Except.error "network down"
    parse := fun _ => Except.error "unreachable" }

/-- A concrete application state for witnesses: one folder, one idea
inside it, one idea with a dangling reference. -/
def sampleState : AppState :=
  { ideas := [baseIdea, ghostIdea]
    folders := sampleFolders
    activeFolderId := "f1"
    searchQuery := "" }

/-- A concrete timeline update used to instantiate witnesses. -/
def sampleUpdate : IdeaUpdate :=
  { id := "u-0"
    content := "first step"
    timestamp := 120
    type := UpdateType.update
    attachments := none }

/-- A concrete creation request with a non-blank title. -/
def reqA : CreateReq :=
  { newTitle := "A", newContent := "x", newAttachments := []
    freshId := "id-a", tCreated := 10, tModified := 10 }

/-- A concrete creation request with a blank title but non-blank
content; the second clock reading is one millisecond later. -/
def reqB : CreateReq :=
  { newTitle := "", newContent := "note", newAttachments := []
    freshId := "id-b", tCreated := 20, tModified := 21 }

/-- A concrete empty starting state. -/
def emptyState : AppState :=
  { ideas := [], folders := [], activeFolderId := "all", searchQuery := "" }

/-- The filter predicate exactly as claim C5 words it: the selector is
`all`, or it is `uncategorized` and `folderId` is absent, or it equals
the `folderId`; and the query is unset (blank after trimming) or is a
case-insensitive substring of the title, the content, or some tag.
This definition follows the claim text, for comparison against the
source-derived `ideaPasses`. -/
def claimPasses (sel q : String) (i : Idea) : Bool :=
  (sel = "all" || (sel = "uncategorized" && i.folderId = none)
    || i.folderId = some sel)
  && (jsTrim q = "" || strIncludes (jsToLower i.title) (jsToLower q)
    || strIncludes (jsToLower i.content) (jsToLower q)
    || i.tags.any (fun t => strIncludes (jsToLower t) (jsToLower q)))

/-- An idea carrying an empty-string `folderId` — representable in the
TypeScript state (`folderId?: string`) though not produced by the
in-app handlers. -/
def emptyFolderIdea : Idea :=
  { baseIdea with id := "idea-empty", folderId := some "" }

/-- The filter predicate as amended: the `uncategorized` selector
accepts an absent or empty `folderId` (JavaScript falsiness), and the
equality clause applies only to selectors other than `all` and
`uncategorized`. -/
def amendedPasses (sel q : String) (i : Idea) : Bool :=
  (sel = "all"
    || (sel = "uncategorized" && (i.folderId = none || i.folderId = some ""))
    || (!(sel = "all") && !(sel = "uncategorized") && i.folderId = some sel))
  && (jsTrim q = "" || strIncludes (jsToLower i.title) (jsToLower q)
    || strIncludes (jsToLower i.content) (jsToLower q)
    || i.tags.any (fun t => strIncludes (jsToLower t) (jsToLower q)))

/-- A concrete idea whose only occurrence of the query `ml` is in a
tag. -/
def tagIdea : Idea :=
  { baseIdea with
    id := "idea-tag"
    title := "Title A"
    content := "xyz"
    tags := ["ml"] }

/-- A concrete idea not matching the query `ml` anywhere. -/
def plainIdea : Idea :=
  { baseIdea with
    id := "idea-plain"
    title := "Other"
    content := "words"
    tags := [] }

/-- A concrete idea created on 2024-01-05 (UTC milliseconds). -/
def janIdea : Idea :=
  { baseIdea with
    id := "idea-jan"
    createdAt := 1704412800000
    folderId := none }

/-- A concrete idea created on 2024-02-10 (UTC milliseconds). -/
def febIdea : Idea :=
  { baseIdea with
    id := "idea-feb"
    createdAt := 1707523200000
    folderId := none }

/-- A concrete timeline update posted on 2024-01-05. -/
def updA : IdeaUpdate :=
  { id := "u-a"
    content := "started"
    timestamp := 1704412800000
    type := UpdateType.update
    attachments := none }

/-- A concrete timeline update posted on 2024-02-10, stored after
`updA` in append order. -/
def updB : IdeaUpdate :=
  { id := "u-b"
    content := "milestone"
    timestamp := 1707523200000
    type := UpdateType.milestone
    attachments := none }

theorem collectKeys_nodup {α κ : Type} [DecidableEq κ] (f : α → κ)
    (l : List α) : (collectKeys f l).Nodup := by
  induction l with
  | nil => simp [collectKeys]
  | cons a l ih =>
    rw [collectKeys, List.nodup_cons]
    refine ⟨fun h => ?_, ih.filter _⟩
    have := List.of_mem_filter h
    simp at this

theorem collectKeys_sublist {α κ : Type} [DecidableEq κ] (f : α → κ)
    (l : List α) : (collectKeys f l).Sublist (l.map f) := by
  induction l with
  | nil => simp [collectKeys]
  | cons a l ih =>
    rw [collectKeys, List.map_cons]
    exact List.Sublist.cons₂ _ ((List.filter_sublist _).trans ih)

theorem mem_collectKeys {α κ : Type} [DecidableEq κ] {f : α → κ}
    {l : List α} {k : κ} : k ∈ collectKeys f l ↔ k ∈ l.map f := by
  induction l with
  | nil => simp [collectKeys]
  | cons a l ih =>
    rw [collectKeys, List.map_cons]
    by_cases hk : k = f a
    · simp [hk]
    · simp [List.mem_filter, hk, ih]

theorem filter_eq_single {α : Type} [DecidableEq α] (l : List α)
    (p : α → Bool) (a : α) (hc : l.count a = 1)
    (hp : ∀ b ∈ l, (p b = true ↔ b = a)) : l.filter p = [a] := by
  induction l with
  | nil => simp at hc
  | cons x l ih =>
    by_cases hxa : x = a
    · subst hxa
      rw [List.count_cons_self] at hc
      have h0 : l.count x = 0 := by omega
      have hnil : l.filter p = [] := by
        rw [List.filter_eq_nil_iff]
        intro b hb hpb
        have hbx : b = x := (hp b (List.mem_cons_of_mem _ hb)).1 hpb
        subst hbx
        exact absurd (List.count_pos_iff.mpr hb) (by omega)
      have hpx : p x = true := (hp x (List.mem_cons_self x l)).2 rfl
      simp [List.filter_cons, hpx, hnil]
    · have hpx : p x = false := by
        cases hv : p x
        · rfl
        · exact absurd ((hp x (List.mem_cons_self x l)).1 hv) hxa
      rw [List.count_cons_of_ne (fun h => hxa h.symm)] at hc
      rw [List.filter_cons, if_neg (by simp [hpx])]
      exact ih hc (fun b hb => hp b (List.mem_cons_of_mem _ hb))

theorem keyLe_trans (a b c : Nat × Nat) (h1 : keyLe a b = true)
    (h2 : keyLe b c = true) : keyLe a c = true := by
  simp only [keyLe, Bool.or_eq_true, Bool.and_eq_true, decide_eq_true_eq] at *
  omega

theorem keyLe_total (a b : Nat × Nat) : (keyLe a b || keyLe b a) = true := by
  simp only [keyLe, Bool.or_eq_true, Bool.and_eq_true, decide_eq_true_eq]
  omega

theorem keyLe_strict (a b : Nat × Nat) (h : keyLe b a = true) (hne : a ≠ b) :
    b.1 < a.1 ∨ (b.1 = a.1 ∧ b.2 < a.2) := by
  simp only [keyLe, Bool.or_eq_true, Bool.and_eq_true, decide_eq_true_eq] at h
  rcases h with h | ⟨h1, h2⟩
  · exact Or.inl h
  · refine Or.inr ⟨h1, ?_⟩
    rcases Nat.lt_or_ge b.2 a.2 with h3 | h3
    · exact h3
    · exact absurd (Prod.ext h1 (Nat.le_antisymm h2 h3)) (fun h => hne h.symm)

theorem byCreatedDesc_trans (a b c : Idea) (h1 : byCreatedDesc a b = true)
    (h2 : byCreatedDesc b c = true) : byCreatedDesc a c = true := by
  simp only [byCreatedDesc, decide_eq_true_eq] at *
  omega

theorem byCreatedDesc_total (a b : Idea) :
    (byCreatedDesc a b || byCreatedDesc b a) = true := by
  simp only [byCreatedDesc, Bool.or_eq_true, decide_eq_true_eq]
  omega

theorem byTimestampDesc_trans (a b c : IdeaUpdate)
    (h1 : byTimestampDesc a b = true) (h2 : byTimestampDesc b c = true) :
    byTimestampDesc a c = true := by
  simp only [byTimestampDesc, decide_eq_true_eq] at *
  omega

theorem byTimestampDesc_total (a b : IdeaUpdate) :
    (byTimestampDesc a b || byTimestampDesc b a) = true := by
  simp only [byTimestampDesc, Bool.or_eq_true, decide_eq_true_eq]
  omega

/-- C10: `handleUpdateIdea(u)` replaces, by full value, exactly the
entries whose id equals `u.id`, leaves every other idea unchanged in
value and position (the length is preserved and entry `k` of the
result is entry `k` of the input whenever the ids differ), and is a
silent no-op — not an error — when no idea in the collection carries
`u.id`. -/
theorem handleUpdateIdea_frame (ideas : List Idea) (u : Idea) :
    (handleUpdateIdea ideas u).length = ideas.length ∧
    (∀ (k : Nat) (hk : k < ideas.length),
      (handleUpdateIdea ideas u).get ⟨k, by simpa [handleUpdateIdea] using hk⟩
        = if (ideas.get ⟨k, hk⟩).id = u.id then u else ideas.get ⟨k, hk⟩) ∧
    ((∀ i ∈ ideas, i.id ≠ u.id) → handleUpdateIdea ideas u = ideas) := by
  refine ⟨by simp [handleUpdateIdea], ?_, ?_⟩
  · intro k hk
    simp [handleUpdateIdea]
  · intro h
    have hmap : ideas.map (fun i => if i.id = u.id then u else i)
        = ideas.map id :=
      List.map_congr_left (fun i hi => by simp [h i hi])
    simpa [handleUpdateIdea] using hmap

/-- Witness for the no-op conjunct of `handleUpdateIdea_frame` at a
concrete collection whose single idea does not carry the replacement
id. -/
theorem handleUpdateIdea_frame_witness :
    handleUpdateIdea [baseIdea] { baseIdea with id := "idea-2" } = [baseIdea] :=
  (handleUpdateIdea_frame [baseIdea] { baseIdea with id := "idea-2" }).2.2
    (by decide)

/-- C2 counterexample: changing the folder assignment through
`handleFolderChange` is a mutation of the idea — its `folderId`
changes — yet the resulting `lastModified` stays at its pre-mutation
value, because this handler omits the fresh timestamp that every other
mutation handler applies. -/
theorem handleFolderChange_stale_lastModified :
    (handleFolderChange baseIdea "f2").folderId ≠ baseIdea.folderId ∧
    (handleFolderChange baseIdea "f2").lastModified = baseIdea.lastModified := by
  decide

/-- C2 amended: saving title/content/attachment edits, adding an
update, editing an update and deleting an update each refresh
`lastModified` to the time of the mutation; changing the folder
assignment is the exception — `handleFolderChange` leaves
`lastModified` at its previous value. -/
theorem mutations_refresh_lastModified (idea : Idea)
    (editTitle editContent : String) (editAtts : List Attachment)
    (c : String) (ty : UpdateType) (atts : List Attachment)
    (fid : String) (t1 t2 now1 now2 now3 : Nat)
    (upd : IdeaUpdate) (uid v : String) :
    (handleSave idea editTitle editContent editAtts now1).lastModified = now1 ∧
    (handleAddUpdate idea c ty atts fid t1 t2).lastModified = t2 ∧
    (handleEditUpdate idea upd now2).lastModified = now2 ∧
    (handleDeleteUpdate idea uid now3).lastModified = now3 ∧
    (handleFolderChange idea v).lastModified = idea.lastModified :=
  ⟨rfl, rfl, rfl, rfl, rfl⟩

/-- C3 counterexample: with the credential missing the adapter does not
return the empty-list default — it throws `API Key is missing` past the
adapter boundary, because that check sits before the `try`/`catch`. -/
theorem generateIdeaSuggestions_missing_key_throws :
    generateIdeaSuggestions noKeyEnv "t" "c"
        = Except.error "API Key is missing" ∧
    generateIdeaSuggestions noKeyEnv "t" "c"
        ≠ Except.ok { tags := [], nextSteps := [] } :=
  ⟨rfl, fun h => Except.noConfusion h⟩

/-- C3 amended: when the API key is present the adapter never lets an
exception escape — every outcome is an `Except.ok` — and each failure
inside the `try` (the service call throwing, an absent response text,
a `JSON.parse` failure) yields the empty-list default; when the key is
missing the adapter instead throws `API Key is missing` to the
caller. -/
theorem generateIdeaSuggestions_boundary (env : AIEnv)
    (title content : String) :
    (optTruthy env.apiKey = true →
      (∃ s, generateIdeaSuggestions env title content = Except.ok s) ∧
      (∀ e, env.callResult = Except.error e →
        generateIdeaSuggestions env title content
          = Except.ok { tags := [], nextSteps := [] }) ∧
      (env.callResult = Except.ok none →
        generateIdeaSuggestions env title content
          = Except.ok { tags := [], nextSteps := [] }) ∧
      (∀ text e, env.callResult = Except.ok (some text) →
        env.parse text = Except.error e →
        generateIdeaSuggestions env title content
          = Except.ok { tags := [], nextSteps := [] })) ∧
    (optTruthy env.apiKey = false →
      generateIdeaSuggestions env title content
        = Except.error "API Key is missing") := by
  constructor
  · intro hkey
    refine ⟨?_, ?_, ?_, ?_⟩
    · rcases hcr : env.callResult with e | t
      · exact ⟨{ tags := [], nextSteps := [] },
          by simp [generateIdeaSuggestions, hkey, hcr]⟩
      · rcases t with _ | text
        · exact ⟨{ tags := [], nextSteps := [] },
            by simp [generateIdeaSuggestions, hkey, hcr]⟩
        · by_cases ht : text = ""
          · exact ⟨{ tags := [], nextSteps := [] },
              by simp [generateIdeaSuggestions, hkey, hcr, ht]⟩
          · rcases hp : env.parse text with e | s
            · exact ⟨{ tags := [], nextSteps := [] },
                by simp [generateIdeaSuggestions, hkey, hcr, ht, hp]⟩
            · exact ⟨s, by simp [generateIdeaSuggestions, hkey, hcr, ht, hp]⟩
    · intro e hcr
      simp [generateIdeaSuggestions, hkey, hcr]
    · intro hcr
      simp [generateIdeaSuggestions, hkey, hcr]
    · intro text e hcr hp
      by_cases ht : text = ""
      · simp [generateIdeaSuggestions, hkey, hcr, ht]
      · simp [generateIdeaSuggestions, hkey, hcr, ht, hp]
  · intro hkey
    simp [generateIdeaSuggestions, hkey]

/-- Witness for `generateIdeaSuggestions_boundary`: the spec scenario —
a network error inside the call yields the empty-list default, not an
exception. -/
theorem generateIdeaSuggestions_boundary_witness :
    generateIdeaSuggestions netErrEnv "t" "c"
      = Except.ok { tags := [], nextSteps := [] } :=
  ((generateIdeaSuggestions_boundary netErrEnv "t" "c").1 (by decide)).2.1
    "network down" rfl

/-- C4 counterexample: `ghostIdea` has a present but dangling
`folderId` (no folder named by it exists, so the name lookup yields
nothing), yet it does not pass the `uncategorized` filter selector —
the filter tests only the presence of `folderId`, never its
existence. -/
theorem dangling_folder_not_uncategorized :
    ghostIdea.folderId = some "ghost" ∧
    folderName sampleFolders "ghost" = none ∧
    ideaPasses "uncategorized" "" ghostIdea = false := by
  decide

/-- C4 amended: a dangling `folderId` never produces an error — the
folder-name lookup just yields nothing — but it is not treated as if
`folderId` were absent: the idea fails the `uncategorized` selector; it
passes `all` and the selector equal to the dangling id itself, in both
cases subject only to the search clause. -/
theorem dangling_folder_degrades (i : Idea) (g q : String)
    (folders : List Folder) (hg : i.folderId = some g) (hne : g ≠ "")
    (hd : ∀ f ∈ folders, f.id ≠ g) :
    folderName folders g = none ∧
    ideaPasses "uncategorized" q i = false ∧
    ideaPasses "all" q i = searchMatches q i ∧
    (g ≠ "all" → g ≠ "uncategorized" → ideaPasses g q i = searchMatches q i) := by
  refine ⟨?_, ?_, ?_, ?_⟩
  · simp only [folderName, Option.map_eq_none', List.find?_eq_none,
      decide_eq_true_eq]
    exact hd
  · simp [ideaPasses, folderSelectorMatches, hg, optTruthy, hne]
  · simp [ideaPasses, folderSelectorMatches]
  · intro h1 h2
    simp [ideaPasses, folderSelectorMatches, h1, h2, hg]

/-- Witness for `dangling_folder_degrades` at the concrete `ghostIdea`
and `sampleFolders`. -/
theorem dangling_folder_degrades_witness :
    ideaPasses "uncategorized" "" ghostIdea = false :=
  (dangling_folder_degrades ghostIdea "ghost" "" sampleFolders rfl
    (by decide) (by decide)).2.1

/-- C1: after `handleDeleteFolder(f)` completes — a single atomic state
transition, React batching the collection updates of the handler — the
folder `f` is gone from the folder collection, no idea references `f`,
no idea is deleted (the length is preserved and every entry is either
untouched or merely stripped of its `folderId`), and every idea that
referenced `f` is now present with `folderId` absent and satisfies the
`uncategorized` filter predicate. -/
theorem handleDeleteFolder_spec (s : AppState) (f : String) :
    (∀ fl ∈ (handleDeleteFolder s f).folders, fl.id ≠ f) ∧
    (∀ i ∈ (handleDeleteFolder s f).ideas, i.folderId ≠ some f) ∧
    (handleDeleteFolder s f).ideas.length = s.ideas.length ∧
    (∀ (k : Nat) (hk : k < s.ideas.length),
      (handleDeleteFolder s f).ideas.get
          ⟨k, by simpa [handleDeleteFolder] using hk⟩
        = if (s.ideas.get ⟨k, hk⟩).folderId = some f
          then { s.ideas.get ⟨k, hk⟩ with folderId := none }
          else s.ideas.get ⟨k, hk⟩) ∧
    (∀ i ∈ s.ideas, i.folderId = some f →
      ({ i with folderId := none } : Idea) ∈ (handleDeleteFolder s f).ideas ∧
      folderSelectorMatches "uncategorized" { i with folderId := none } = true) := by
  refine ⟨?_, ?_, by simp [handleDeleteFolder], ?_, ?_⟩
  · intro fl hfl
    simp only [handleDeleteFolder] at hfl
    have := List.of_mem_filter hfl
    simpa using this
  · intro i hi
    simp only [handleDeleteFolder, List.mem_map] at hi
    obtain ⟨j, hj, rfl⟩ := hi
    by_cases hjf : j.folderId = some f
    · simp [hjf]
    · simp [hjf]
  · intro k hk
    simp [handleDeleteFolder]
  · intro i hi hif
    constructor
    · simp only [handleDeleteFolder]
      exact List.mem_map.mpr ⟨i, hi, by simp [hif]⟩
    · simp [folderSelectorMatches, optTruthy]

/-- Witness for `handleDeleteFolder_spec` at the concrete state: the
idea that lived in folder `f1` survives with `folderId` absent and
satisfies the `uncategorized` predicate. -/
theorem handleDeleteFolder_spec_witness :
    ({ baseIdea with folderId := none } : Idea)
        ∈ (handleDeleteFolder sampleState "f1").ideas ∧
    folderSelectorMatches "uncategorized"
        { baseIdea with folderId := none } = true :=
  (handleDeleteFolder_spec sampleState "f1").2.2.2.2 baseIdea (by decide) rfl

/-- C8: `handleAddUpdate` appends a freshly identified update at the
end of the updates sequence; `handleEditUpdate` replaces, by full
value, exactly the updates whose id matches; `handleDeleteUpdate`
removes exactly the updates whose id matches; each stamps a fresh
`lastModified` on the replacement idea it routes through
`onUpdateIdea`.  Adding an update under a fresh id and then deleting by
that id restores the original updates sequence with `lastModified`
advanced. -/
theorem updates_mutation_spec (idea : Idea) (c : String) (ty : UpdateType)
    (atts : List Attachment) (fid : String) (t1 t2 now nowE nowD : Nat)
    (upd : IdeaUpdate) (uid : String) :
    (handleAddUpdate idea c ty atts fid t1 t2).updates
      = idea.updates ++
        [{ id := fid, content := c, timestamp := t1, type := ty,
           attachments := some atts }] ∧
    (handleAddUpdate idea c ty atts fid t1 t2).lastModified = t2 ∧
    (∀ (k : Nat) (hk : k < idea.updates.length),
      (handleEditUpdate idea upd nowE).updates.get
          ⟨k, by simpa [handleEditUpdate] using hk⟩
        = if (idea.updates.get ⟨k, hk⟩).id = upd.id then upd
          else idea.updates.get ⟨k, hk⟩) ∧
    (handleEditUpdate idea upd nowE).lastModified = nowE ∧
    (∀ u : IdeaUpdate, u ∈ (handleDeleteUpdate idea uid nowD).updates
      ↔ (u ∈ idea.updates ∧ u.id ≠ uid)) ∧
    (handleDeleteUpdate idea uid nowD).lastModified = nowD ∧
    ((∀ u ∈ idea.updates, u.id ≠ fid) →
      (handleDeleteUpdate (handleAddUpdate idea c ty atts fid t1 t2)
          fid now).updates
        = idea.updates) ∧
    (idea.lastModified < now →
      idea.lastModified
        < (handleDeleteUpdate (handleAddUpdate idea c ty atts fid t1 t2)
            fid now).lastModified) := by
  refine ⟨rfl, rfl, ?_, rfl, ?_, rfl, ?_, ?_⟩
  · intro k hk
    simp [handleEditUpdate]
  · intro u
    simp [handleDeleteUpdate, List.mem_filter]
  · intro hfresh
    simp only [handleDeleteUpdate, handleAddUpdate, List.filter_append]
    rw [List.filter_eq_self.mpr (fun u hu => by simp [hfresh u hu])]
    simp
  · intro hlt
    simpa [handleDeleteUpdate] using hlt

/-- Witness for `updates_mutation_spec`: the spec scenario — adding the
update `done` to the concrete idea and deleting it by its fresh id
leaves the updates sequence as before. -/
theorem updates_mutation_spec_witness :
    (handleDeleteUpdate
        (handleAddUpdate baseIdea "done" UpdateType.update [] "u-1" 200 200)
        "u-1" 300).updates = baseIdea.updates :=
  (updates_mutation_spec baseIdea "done" UpdateType.update [] "u-1" 200 200
      300 0 0 sampleUpdate "x").2.2.2.2.2.2.1 (by decide)

theorem foldl_handleCreateIdea (rs : List CreateReq) (s : AppState) :
    (rs.foldl handleCreateIdea s).ideas
      = ((rs.filter (fun r =>
            !(decide (jsTrim r.newTitle = "" ∧ jsTrim r.newContent = "")))).map
          (mkIdea s.activeFolderId)).reverse ++ s.ideas ∧
    (rs.foldl handleCreateIdea s).activeFolderId = s.activeFolderId := by
  induction rs generalizing s with
  | nil => simp
  | cons r rs ih =>
    by_cases hacc : jsTrim r.newTitle = "" ∧ jsTrim r.newContent = ""
    · have hstep : handleCreateIdea s r = s := by
        simp [handleCreateIdea, hacc]
      obtain ⟨ih1, ih2⟩ := ih s
      constructor
      · rw [List.foldl_cons, hstep, ih1, List.filter_cons]
        simp [hacc]
      · rw [List.foldl_cons, hstep, ih2]
    · have hstep : handleCreateIdea s r
          = { s with ideas := mkIdea s.activeFolderId r :: s.ideas } := by
        simp [handleCreateIdea, hacc]
      obtain ⟨ih1, ih2⟩ :=
        ih { s with ideas := mkIdea s.activeFolderId r :: s.ideas }
      constructor
      · rw [List.foldl_cons, hstep, ih1, List.filter_cons]
        simp [hacc, List.reverse_cons]
      · rw [List.foldl_cons, hstep, ih2]

/-- C9: for any sequence of `handleCreateIdea` calls starting from an
empty collection, with fresh ids (the `crypto.randomUUID` contract) and
with the second `Date.now()` of each call at or after the first (the
clock is monotone within one handler), the resulting collection is
exactly the reverse of the accepted creations — each created idea was
prepended, so creation order is recoverable — all ids are distinct, and
every idea satisfies `createdAt ≤ lastModified`, both timestamps
assigned at creation time. -/
theorem handleCreateIdea_spec (s0 : AppState) (rs : List CreateReq)
    (h0 : s0.ideas = [])
    (hfresh : (rs.map CreateReq.freshId).Nodup)
    (ht : ∀ r ∈ rs, r.tCreated ≤ r.tModified) :
    (rs.foldl handleCreateIdea s0).ideas
      = ((rs.filter (fun r =>
            !(decide (jsTrim r.newTitle = "" ∧ jsTrim r.newContent = "")))).map
          (mkIdea s0.activeFolderId)).reverse ∧
    ((rs.foldl handleCreateIdea s0).ideas.map Idea.id).Nodup ∧
    (∀ i ∈ (rs.foldl handleCreateIdea s0).ideas,
      i.createdAt ≤ i.lastModified) := by
  obtain ⟨h1, _⟩ := foldl_handleCreateIdea rs s0
  rw [h0, List.append_nil] at h1
  refine ⟨h1, ?_, ?_⟩
  · rw [h1, List.map_reverse, List.nodup_reverse, List.map_map]
    have hcomp : (Idea.id ∘ mkIdea s0.activeFolderId) = CreateReq.freshId := rfl
    rw [hcomp]
    exact List.Nodup.sublist
      ((List.filter_sublist _).map CreateReq.freshId) hfresh
  · intro i hi
    rw [h1, List.mem_reverse, List.mem_map] at hi
    obtain ⟨r, hr, rfl⟩ := hi
    exact ht r (List.mem_of_mem_filter hr)

/-- Witness for `handleCreateIdea_spec` on two concrete creations from
the empty state: the resulting ids are distinct. -/
theorem handleCreateIdea_spec_witness :
    (([reqA, reqB].foldl handleCreateIdea emptyState).ideas.map Idea.id).Nodup :=
  (handleCreateIdea_spec emptyState [reqA, reqB] rfl (by decide)
    (by decide)).2.1

/-- C5 counterexample: under the `uncategorized` selector the source
filter tests JavaScript truthiness, so an idea with the empty string as
`folderId` passes although its `folderId` is not absent and does not
equal the selector — the filter and the claimed predicate disagree. -/
theorem filter_truthiness_counterexample :
    ideaPasses "uncategorized" "" emptyFolderIdea = true ∧
    claimPasses "uncategorized" "" emptyFolderIdea = false := by
  decide

theorem searchMatches_eq (q : String) (i : Idea) :
    searchMatches q i
      = (jsTrim q = "" || strIncludes (jsToLower i.title) (jsToLower q)
        || strIncludes (jsToLower i.content) (jsToLower q)
        || i.tags.any (fun t => strIncludes (jsToLower t) (jsToLower q))) := by
  unfold searchMatches
  by_cases hq : jsTrim q = "" <;> simp [hq]

theorem folderSelectorMatches_all (i : Idea) :
    folderSelectorMatches "all" i = true := by
  simp [folderSelectorMatches]

/-- C5 amended: the filter passes an idea iff (a) the selector is
`all`; or the selector is `uncategorized` and the `folderId` is absent
or the empty string; or the selector is any other value and equals the
`folderId`; and (b) the query is blank after trimming or occurs
case-insensitively in title, content or some tag.  `filteredIdeas` is
the filter by that predicate, and a non-blank query occurring in one
idea and in no other returns exactly that idea under the `all`
selector. -/
theorem filteredIdeas_spec :
    (∀ sel q i, ideaPasses sel q i = amendedPasses sel q i) ∧
    (∀ ideas sel q,
      filteredIdeas ideas sel q = ideas.filter (ideaPasses sel q)) ∧
    (∀ (ideas : List Idea) (q : String) (i : Idea),
      jsTrim q ≠ "" →
      ideas.count i = 1 →
      (∀ j ∈ ideas, j ≠ i → searchMatches q j = false) →
      i.tags.any (fun t => strIncludes (jsToLower t) (jsToLower q)) = true →
      filteredIdeas ideas "all" q = [i]) := by
  refine ⟨?_, fun _ _ _ => rfl, ?_⟩
  · intro sel q i
    have hsearch := searchMatches_eq q i
    unfold ideaPasses amendedPasses
    rw [hsearch]
    congr 1
    unfold folderSelectorMatches
    by_cases hall : sel = "all"
    · subst hall
      simp
    · by_cases hunc : sel = "uncategorized"
      · subst hunc
        rcases hf : i.folderId with _ | s
        · simp [optTruthy]
        · by_cases hs : s = "" <;> simp [optTruthy, hs]
      · simp [hall, hunc]
  · intro ideas q i hq hc honly htag
    have hipass : searchMatches q i = true := by
      rw [searchMatches_eq]
      simp [htag]
    have hall : ∀ j ∈ ideas, (ideaPasses "all" q j = true ↔ j = i) := by
      intro j hj
      constructor
      · intro hpass
        by_contra hne
        rw [ideaPasses, folderSelectorMatches_all, Bool.true_and] at hpass
        exact absurd hpass (by simp [honly j hj hne])
      · rintro rfl
        rw [ideaPasses, folderSelectorMatches_all, Bool.true_and]
        exact hipass
    exact filter_eq_single ideas _ i hc hall

/-- Witness for `filteredIdeas_spec`: searching `ml`, present only in
the tag of `tagIdea`, returns exactly that idea. -/
theorem filteredIdeas_spec_witness :
    filteredIdeas [tagIdea, plainIdea] "all" "ml" = [tagIdea] :=
  filteredIdeas_spec.2.2 [tagIdea, plainIdea] "ml" tagIdea (by decide)
    (by decide) (by decide) (by decide)

theorem insertSorted_perm {α : Type} (le : α → α → Bool) (a : α)
    (l : List α) : (insertSorted le a l).Perm (a :: l) := by
  induction l with
  | nil => exact List.Perm.refl _
  | cons b l ih =>
    unfold insertSorted
    by_cases h : le a b
    · rw [if_pos h]
    · rw [if_neg h]
      exact (ih.cons b).trans (List.Perm.swap a b l)

theorem stableSort_perm {α : Type} (le : α → α → Bool) (l : List α) :
    (stableSort le l).Perm l := by
  induction l with
  | nil => exact List.Perm.refl _
  | cons a l ih =>
    exact (insertSorted_perm le a (stableSort le l)).trans (ih.cons a)

theorem insertSorted_pairwise {α : Type} (le : α → α → Bool)
    (htrans : ∀ a b c, le a b = true → le b c = true → le a c = true)
    (htotal : ∀ a b, (le a b || le b a) = true) (a : α) (l : List α)
    (h : l.Pairwise (fun x y => le x y = true)) :
    (insertSorted le a l).Pairwise (fun x y => le x y = true) := by
  induction l with
  | nil => simp [insertSorted]
  | cons b l ih =>
    obtain ⟨hb, hl⟩ := List.pairwise_cons.mp h
    by_cases hab : le a b
    · unfold insertSorted
      rw [if_pos hab]
      refine List.pairwise_cons.mpr ⟨?_, h⟩
      intro c hc
      rcases List.mem_cons.mp hc with rfl | hc
      · exact hab
      · exact htrans a b c hab (hb c hc)
    · unfold insertSorted
      rw [if_neg hab]
      refine List.pairwise_cons.mpr ⟨?_, ih hl⟩
      intro c hc
      rcases List.mem_cons.mp ((insertSorted_perm le a l).subset hc)
        with hceq | hc2
      · rw [hceq]
        have h1 := htotal a b
        have hab2 : le a b = false := by
          cases hv : le a b
          · rfl
          · exact absurd hv hab
        rw [hab2, Bool.false_or] at h1
        exact h1
      · exact hb c hc2

theorem stableSort_pairwise {α : Type} (le : α → α → Bool)
    (htrans : ∀ a b c, le a b = true → le b c = true → le a c = true)
    (htotal : ∀ a b, (le a b || le b a) = true) (l : List α) :
    (stableSort le l).Pairwise (fun x y => le x y = true) := by
  induction l with
  | nil => simp [stableSort]
  | cons a l ih => exact insertSorted_pairwise le htrans htotal a _ ih

set_option maxRecDepth 4096 in
/-- C6: the month view buckets the filtered ideas by the `(year,
month)` of `createdAt` (every member of a bucket carries the bucket
key and every filtered idea lands in the bucket of its key), orders
the buckets most-recent-month-first (strictly decreasing keys), and
orders each bucket by `createdAt` descending; ideas created on
2024-01-05 and 2024-02-10 yield exactly the two buckets 2024-02 then
2024-01. -/
theorem groupedIdeas_spec (filtered : List Idea) :
    ((groupedIdeas filtered).map Prod.fst).Pairwise
      (fun a b => b.1 < a.1 ∨ (b.1 = a.1 ∧ b.2 < a.2)) ∧
    (∀ g ∈ groupedIdeas filtered,
      (∀ i ∈ g.2, monthKey i.createdAt = g.1) ∧
      (g.2.map Idea.createdAt).Pairwise (fun x y => y ≤ x)) ∧
    (∀ i ∈ filtered, ∃ g ∈ groupedIdeas filtered,
      g.1 = monthKey i.createdAt ∧ i ∈ g.2) ∧
    groupedIdeas [janIdea, febIdea]
      = [((2024, 2), [febIdea]), ((2024, 1), [janIdea])] := by
  refine ⟨?_, ?_, ?_, by decide⟩
  · have h1 : (groupedIdeas filtered).map Prod.fst
        = (stableSort keyLe
            (collectKeys (fun i => monthKey i.createdAt) filtered)).reverse := by
      simp only [groupedIdeas, List.map_map]
      exact (List.map_congr_left (fun k _ => rfl)).trans (List.map_id _)
    rw [h1]
    have hpair : (stableSort keyLe
        (collectKeys (fun i => monthKey i.createdAt) filtered)).Pairwise
          (fun a b => keyLe a b = true) :=
      stableSort_pairwise keyLe keyLe_trans keyLe_total _
    have hperm := (stableSort_perm keyLe
        (collectKeys (fun i : Idea => monthKey i.createdAt) filtered)).symm
    have hnd := hperm.nodup
        (collectKeys_nodup (fun i : Idea => monthKey i.createdAt) filtered)
    have hrev := List.pairwise_reverse.mpr hpair
    have hndrev := List.nodup_reverse.mpr hnd
    refine (hrev.and hndrev).imp ?_
    intro a b h
    exact keyLe_strict a b h.1 h.2
  · intro g hg
    simp only [groupedIdeas, List.mem_map] at hg
    obtain ⟨k, hk, rfl⟩ := hg
    constructor
    · intro i hi
      have hi2 : i ∈ filtered.filter (fun i => monthKey i.createdAt = k) :=
        (stableSort_perm byCreatedDesc _).subset hi
      have := List.of_mem_filter hi2
      simpa using this
    · rw [List.pairwise_map]
      refine (stableSort_pairwise byCreatedDesc byCreatedDesc_trans
        byCreatedDesc_total _).imp ?_
      intro a b h
      simpa [byCreatedDesc] using h
  · intro i hi
    have hkmem : monthKey i.createdAt
        ∈ collectKeys (fun j => monthKey j.createdAt) filtered :=
      mem_collectKeys.mpr (List.mem_map_of_mem _ hi)
    have hkmem2 : monthKey i.createdAt
        ∈ (stableSort keyLe
            (collectKeys (fun j => monthKey j.createdAt) filtered)).reverse :=
      List.mem_reverse.mpr ((stableSort_perm keyLe _).symm.subset hkmem)
    refine ⟨(monthKey i.createdAt,
        stableSort byCreatedDesc
          (filtered.filter (fun j => monthKey j.createdAt
            = monthKey i.createdAt))), ?_, rfl, ?_⟩
    · simp only [groupedIdeas, List.mem_map]
      exact ⟨monthKey i.createdAt, hkmem2, rfl⟩
    · exact (stableSort_perm byCreatedDesc _).symm.subset
        (List.mem_filter.mpr ⟨hi, by simp⟩)

/-- Witness for `groupedIdeas_spec`: the January idea lands in the
bucket keyed by its creation month. -/
theorem groupedIdeas_spec_witness :
    ∃ g ∈ groupedIdeas [janIdea, febIdea],
      g.1 = monthKey janIdea.createdAt ∧ janIdea ∈ g.2 :=
  (groupedIdeas_spec [janIdea, febIdea]).2.2.1 janIdea (by decide)

/-- C7: the timeline view buckets the updates of an idea by the
calendar day of `timestamp` (every member of a bucket carries the
bucket day and every update lands in the bucket of its day), orders
the buckets most-recent-day-first (strictly decreasing days), and
orders each bucket by `timestamp` descending — whatever the stored
(append) order of the updates list. -/
theorem groupedUpdates_spec (updates : List IdeaUpdate) :
    ((groupedUpdates updates).map Prod.fst).Pairwise (fun a b => b < a) ∧
    (∀ g ∈ groupedUpdates updates,
      (∀ u ∈ g.2, dayKey u.timestamp = g.1) ∧
      (g.2.map IdeaUpdate.timestamp).Pairwise (fun x y => y ≤ x)) ∧
    (∀ u ∈ updates, ∃ g ∈ groupedUpdates updates,
      g.1 = dayKey u.timestamp ∧ u ∈ g.2) := by
  have hsorted : (stableSort byTimestampDesc updates).Pairwise
      (fun a b => byTimestampDesc a b = true) :=
    stableSort_pairwise byTimestampDesc byTimestampDesc_trans
      byTimestampDesc_total _
  refine ⟨?_, ?_, ?_⟩
  · have h1 : (groupedUpdates updates).map Prod.fst
        = collectKeys (fun u => dayKey u.timestamp)
            (stableSort byTimestampDesc updates) := by
      simp only [groupedUpdates, List.map_map]
      exact (List.map_congr_left (fun k _ => rfl)).trans (List.map_id _)
    rw [h1]
    have hge : ((stableSort byTimestampDesc updates).map
        (fun u => dayKey u.timestamp)).Pairwise (fun a b => b ≤ a) := by
      rw [List.pairwise_map]
      refine hsorted.imp ?_
      intro a b h
      exact Nat.div_le_div_right (by simpa [byTimestampDesc] using h)
    have hge2 := List.Pairwise.sublist
      (collectKeys_sublist (fun u : IdeaUpdate => dayKey u.timestamp)
        (stableSort byTimestampDesc updates)) hge
    have hnd := collectKeys_nodup (fun u => dayKey u.timestamp)
      (stableSort byTimestampDesc updates)
    refine (hge2.and hnd).imp ?_
    intro a b h
    exact Nat.lt_of_le_of_ne h.1 (Ne.symm h.2)
  · intro g hg
    simp only [groupedUpdates, List.mem_map] at hg
    obtain ⟨k, hk, rfl⟩ := hg
    constructor
    · intro u hu
      have := List.of_mem_filter hu
      simpa using this
    · rw [List.pairwise_map]
      refine List.Pairwise.filter _ (hsorted.imp ?_)
      intro a b h
      simpa [byTimestampDesc] using h
  · intro u hu
    have humem : u ∈ stableSort byTimestampDesc updates :=
      (stableSort_perm byTimestampDesc updates).symm.subset hu
    refine ⟨(dayKey u.timestamp,
        (stableSort byTimestampDesc updates).filter
          (fun v => dayKey v.timestamp = dayKey u.timestamp)), ?_, rfl, ?_⟩
    · simp only [groupedUpdates, List.mem_map]
      exact ⟨dayKey u.timestamp,
        mem_collectKeys.mpr (List.mem_map_of_mem _ humem), rfl⟩
    · exact List.mem_filter.mpr ⟨humem, by simp⟩

/-- Witness for `groupedUpdates_spec`: the earlier update lands in the
bucket keyed by its own calendar day. -/
theorem groupedUpdates_spec_witness :
    ∃ g ∈ groupedUpdates [updA, updB],
      g.1 = dayKey updA.timestamp ∧ updA ∈ g.2 :=
  (groupedUpdates_spec [updA, updB]).2.2 updA (by decide)
